import Mathlib

/-!
Shallow embedding of the grimux plugin host, `src/internal/plugin/plugin.go`.

The Go code embeds a Lua interpreter; guest callbacks are modelled by an
abstract callback type `χ` with decidable equality (Go compares callbacks by
pointer identity, `f == cb`).  Go maps (`map[string]*Plugin`,
`map[string]*lua.LFunction`, `map[string]*Plugin` for commands) are modelled
as association lists with unique keys; `*Plugin` pointer identity is modelled
by a numeric `id` minted at load time.  Host collaborators (`promptFn`,
`writeBufFn`, `addCmdFn`, `delCmdFn`) are modelled by explicit result values
and notification lists.  String helpers from Go's `strings` package are
translated below for the ASCII range, which is all the code under study
compares against ("y", "%", whitespace).
-/

/-- ASCII lower-casing of one character, the fragment of Go's
`strings.ToLower` exercised by the consent checks. -/
def lowerChar (c : Char) : Char :=
  if 'A' ≤ c && c ≤ 'Z' then Char.ofNat (c.toNat + 32) else c

/-- Model of Go's `strings.ToLower` (ASCII range). -/
def toLowerStr (s : String) : String := ⟨s.data.map lowerChar⟩

/-- ASCII whitespace, the fragment of Unicode whitespace relevant here. -/
def isSpaceChar (c : Char) : Bool := c == ' ' || c == '\t' || c == '\n' || c == '\r'

/-- Model of Go's `strings.TrimSpace` (ASCII range). -/
def trimSpace (s : String) : String :=
  ⟨((s.data.dropWhile isSpaceChar).reverse.dropWhile isSpaceChar).reverse⟩

/-- Model of Go's `strings.HasPrefix pre s` (argument order: pattern first). -/
def strHasPre (pre s : String) : Bool := pre.data.isPrefixOf s.data

/-- Lookup in an association list, modelling Go map indexing `m[k]`. -/
def mapLookup {α : Type} : List (String × α) → String → Option α
  | [], _ => none
  | e :: rest, k => if e.1 = k then some e.2 else mapLookup rest k

/-- Insertion `m[k] = v` into an association list modelling a Go map:
overwrite the existing entry for `k` if present, else append. -/
def mapInsert {α : Type} : List (String × α) → String → α → List (String × α)
  | [], k, v => [(k, v)]
  | e :: rest, k, v => if e.1 = k then (k, v) :: rest else e :: mapInsert rest k v

/-- Deletion `delete(m, k)` from an association list modelling a Go map. -/
def mapDelete {α : Type} : List (String × α) → String → List (String × α)
  | [], _ => []
  | e :: rest, k => if e.1 = k then mapDelete rest k else e :: mapDelete rest k

/-- `Info` from plugin.go: a plugin's metadata descriptor, parsed from the
JSON string passed to `plugin.register`. -/
structure Info where
  name : String
  grimux : String
  version : String
deriving DecidableEq

/-- `Plugin` from plugin.go.  `id` models the Go `*Plugin` pointer identity;
`hooks` is the hook table (hook name → callbacks in registration order);
`commands` records the local names bound by `RegisterCommand`;
`allowed` models the `allowed map[string]bool` field (`none` = nil map =
legacy unrestricted); `shutRaises` records whether the optional `shutdown`
callback raises when invoked (its result is discarded by `Unload`). -/
structure Plugin (χ : Type) where
  id : Nat
  info : Info
  handle : String
  hooks : List (String × List χ)
  commands : List String
  allowed : Option (List String)
  shutRaises : Bool
deriving DecidableEq

/-- `Manager` from plugin.go, restricted to the fields the claims concern:
the plugin map and the command registry (qualified command name → id of the
owning `Plugin`).  `dir`, `mute` and `printFn` are orthogonal to the claims. -/
structure Manager (χ : Type) where
  plugins : List (String × Plugin χ)
  commands : List (String × Nat)
deriving DecidableEq

/-- The consent decision of the `register` closure, plugin.go:167-174:
the raise condition is `err != nil || strings.ToLower(strings.TrimSpace(resp)) != "y"`,
so the request proceeds exactly when the prompt succeeded and the trimmed,
lower-cased response equals "y". -/
def registerConsent (r : Except String String) : Bool :=
  match r with
  | .error _ => false
  | .ok resp => toLowerStr (trimSpace resp) == "y"

/-- The consent decision of the `hook` closure, plugin.go:311-319:
the deny condition is `err == nil && strings.ToLower(strings.TrimSpace(resp)) != "y"`,
so the registration proceeds when the trimmed, lower-cased response equals
"y" — or when the prompt itself returned an error. -/
def hookConsent (r : Except String String) : Bool :=
  match r with
  | .error _ => true
  | .ok resp => toLowerStr (trimSpace resp) == "y"

/-- The allow-list test shared by the capability-gated closures:
`p.allowed != nil && !p.allowed[fn]` (a nil map means legacy unrestricted
access). -/
def apiDenied {χ : Type} (p : Plugin χ) (fn : String) : Bool :=
  match p.allowed with
  | none => false
  | some caps => !(caps.contains fn)

/-- Guard at the top of the `print` closure, plugin.go:189. -/
def printGuard {χ : Type} (p : Plugin χ) : Bool := apiDenied p "print"

/-- Guard at the top of the `read` closure, plugin.go:230. -/
def readGuard {χ : Type} (p : Plugin χ) : Bool := apiDenied p "read"

/-- Guard at the top of the `write` closure, plugin.go:253. -/
def writeGuard {χ : Type} (p : Plugin χ) : Bool := apiDenied p "write"

/-- Guard at the top of the `prompt` closure, plugin.go:271. -/
def promptGuard {χ : Type} (p : Plugin χ) : Bool := apiDenied p "prompt"

/-- Guard at the top of the `http` closure, plugin.go:356. -/
def httpGuard {χ : Type} (p : Plugin χ) : Bool := apiDenied p "http"

/-- Guard at the top of the `gen` closure, plugin.go:454. -/
def genGuard {χ : Type} (p : Plugin χ) : Bool := apiDenied p "gen"

/-- Guard at the top of the `socat` closure, plugin.go:481. -/
def socatGuard {χ : Type} (p : Plugin χ) : Bool := apiDenied p "socat"

/-- Guard at the top of the `pipe` closure, plugin.go:508. -/
def pipeGuard {χ : Type} (p : Plugin χ) : Bool := apiDenied p "pipe"

/-- The `hook` closure, plugin.go:300-335, performs no allow-list check at
all: after the handle check it goes straight to the consent prompt and the
registration logic. -/
def hookGuard {χ : Type} (_p : Plugin χ) : Bool := false

/-- The `command` closure, plugin.go:336-349, performs no allow-list check:
after the handle check it calls `RegisterCommand` directly. -/
def commandGuard {χ : Type} (_p : Plugin χ) : Bool := false

/-- `pluginBufferName` from plugin.go:733-738. -/
def pluginBufferName (pluginName name : String) : String :=
  if strHasPre "%" name then name else "%" ++ pluginName ++ "_" ++ name

/-- The `write` closure, plugin.go:247-264: handle check, allow-list check,
then `writeBufFn(pluginBufferName(p.Info.Name, name), data)`.  The shared
buffer store behind `writeBufFn` is modelled as an association list. -/
def writeClosure {χ : Type} (p : Plugin χ) (handle name data : String)
    (store : List (String × String)) : Except String (List (String × String)) :=
  if handle ≠ p.handle then .error "invalid handle"
  else if apiDenied p "write" then .error "write not allowed"
  else .ok (mapInsert store (pluginBufferName p.info.name name) data)

/-- The fragment of gopher-lua's value type reached by `RunHook`'s
`val.String()` coercion in the claims under study.  gopher-lua renders
`LNil` as "nil", booleans as "true"/"false" and strings as themselves. -/
inductive LValue where
  | lnil
  | lbool (b : Bool)
  | lstr (s : String)
deriving DecidableEq

/-- gopher-lua's `LValue.String()` on the fragment above. -/
def lvRender : LValue → String
  | .lnil => "nil"
  | .lbool true => "true"
  | .lbool false => "false"
  | .lstr s => s

/-- One step of `RunHook`'s inner loop, plugin.go:612-619: the guest call
`CallByParam(fn, buf, out)` is modelled by `call cb buf out`; `some v` is a
successful call whose (nil-padded) first return value is `v`, `none` a guest
runtime error.  On success the threaded value becomes `val.String()`; on
error the value is left unchanged. -/
def hookStep {χ : Type} (call : χ → String → String → Option LValue)
    (buf : String) (out : String) (cb : χ) : String :=
  match call cb buf out with
  | some v => lvRender v
  | none => out

/-- `RunHook` from plugin.go:607-624: fold the value over every loaded
plugin (Go map iteration order is modelled by the list order) and, within a
plugin, over the callbacks registered under `name` in registration order. -/
def RunHook {χ : Type} (call : χ → String → String → Option LValue)
    (m : Manager χ) (name buf data : String) : String :=
  m.plugins.foldl (fun out e =>
    match mapLookup e.2.hooks name with
    | some fns => fns.foldl (hookStep call buf) out
    | none => out) data

/-- `RunHook` instrumented with the list of guest-callback invocations it
performs, each tagged with the invoking plugin's identity; used to state
that an unloaded plugin's callbacks are never invoked again. -/
def RunHookT {χ : Type} (call : χ → String → String → Option LValue)
    (m : Manager χ) (name buf data : String) : String × List (Nat × χ) :=
  m.plugins.foldl (fun acc e =>
    match mapLookup e.2.hooks name with
    | some fns => fns.foldl (fun a cb => (hookStep call buf a.1 cb, a.2 ++ [(e.2.id, cb)])) acc
    | none => acc) (data, [])

/-- All callbacks `RunHook` visits for hook `name`, across plugins in map
order and within a plugin in registration order. -/
def hookCallbacks {χ : Type} (m : Manager χ) (name : String) : List χ :=
  (m.plugins.map (fun e => (mapLookup e.2.hooks name).getD [])).flatten

/-- The registration logic of the `hook` closure, plugin.go:320-332 (after
the handle check and the consent prompt): scan `p.hooks[hookName]` for the
same callback identity and append only when absent. -/
def registerHook {χ : Type} [DecidableEq χ] (hooks : List (String × List χ))
    (hookName : String) (cb : χ) : List (String × List χ) :=
  let fns := (mapLookup hooks hookName).getD []
  if cb ∈ fns then hooks else mapInsert hooks hookName (fns ++ [cb])

/-- `Unload` from plugin.go:554-574.  The `shutdown` callback, when present,
is invoked with its error discarded (`_ = p.L.CallByParam(...)`), so the
result does not depend on `shutRaises`.  Every command-registry entry owned
by the instance is removed; the returned list holds the removed qualified
names, in registry order, exactly as reported to `delCmdFn`. -/
def Unload {χ : Type} (m : Manager χ) (name : String) :
    Except String (Manager χ × List String) :=
  match mapLookup m.plugins name with
  | none => .error "plugin not loaded"
  | some p =>
      .ok ({ plugins := mapDelete m.plugins name,
             commands := m.commands.filter (fun e => decide (e.2 ≠ p.id)) },
           (m.commands.filter (fun e => decide (e.2 = p.id))).map (fun e => e.1))

/-- The manager-visible events a script can perform while `Load` runs it
(top-level execution plus `init`): a successful `plugin.register` call with
its parsed descriptor, and a `plugin.command` call.  `fnBound` records
whether a global guest function of that name exists at registration time
(`RegisterCommand`'s `GetGlobal` lookup).  Events that only mutate the
candidate plugin's own tables or collaborators (hook registration, buffer
writes, …) do not affect the state tracked here. -/
inductive ScriptEv where
  | register (inf : Info)
  | command (localName : String) (fnBound : Bool)
deriving DecidableEq

/-- State threaded through a script run inside `Load`: the candidate plugin
being built, the manager's command registry (mutated in place by
`RegisterCommand`), and the `addCmdFn` notifications issued so far. -/
structure LoadSt (χ : Type) where
  p : Plugin χ
  commands : List (String × Nat)
  added : List String
deriving DecidableEq

/-- One script event.  `register` stores the parsed descriptor
(plugin.go:160).  `command` is `RegisterCommand`, plugin.go:651-672: error
if no descriptor name is registered yet, if the qualified name collides, or
if the guest function is missing — each checked before any mutation; on
success the command registry gains `name.local ↦ p` and `addCmdFn` fires.
`none` models the guest-visible raise that aborts the script. -/
def stepEv {χ : Type} (st : LoadSt χ) : ScriptEv → Option (LoadSt χ)
  | .register inf => some { st with p := { st.p with info := inf } }
  | .command localName fnBound =>
      if st.p.info.name = "" then none
      else
        let cmd := st.p.info.name ++ "." ++ localName
        match mapLookup st.commands cmd with
        | some _ => none
        | none =>
            if fnBound then
              some { p := { st.p with commands := st.p.commands ++ [localName] },
                     commands := mapInsert st.commands cmd st.p.id,
                     added := st.added ++ [cmd] }
            else none

/-- Run the script's events in order; on the first failing event the script
aborts, keeping every mutation made by the earlier events (Go mutates the
manager's command map in place). -/
def runEvents {χ : Type} : LoadSt χ → List ScriptEv → LoadSt χ × Bool
  | st, [] => (st, true)
  | st, e :: rest =>
    match stepEv st e with
    | some st2 => runEvents st2 rest
    | none => (st, false)

/-- The fresh candidate plugin minted at the top of `Load`, plugin.go:144. -/
def freshPlugin (χ : Type) (pid : Nat) (handle : String) : Plugin χ :=
  { id := pid, info := ⟨"", "", ""⟩, handle := handle, hooks := [],
    commands := [], allowed := none, shutRaises := false }

/-- Result of `Load`: the manager afterwards, the `addCmdFn` notifications
issued while the script ran, and whether a plugin instance was created. -/
structure LoadRes (χ : Type) where
  mgr : Manager χ
  added : List String
  ok : Bool
deriving DecidableEq

/-- `Load` from plugin.go:142-551, abstracted over the script's
manager-visible events.  `raisesAfter` models a script/`init` runtime error
after the listed events (`DoFile` or `CallByParam` returning an error).  On
any failure the interpreter is discarded and the plugin map is untouched,
but the command registry keeps whatever `RegisterCommand` already did.  On
success the instance is stored with `m.plugins[p.Info.Name] = p` — a plain
map assignment with no duplicate-name check, overwriting any prior instance
of the same name. -/
def Load {χ : Type} (m : Manager χ) (pid : Nat) (handle : String)
    (script : List ScriptEv) (raisesAfter : Bool) : LoadRes χ :=
  let r := runEvents ⟨freshPlugin χ pid handle, m.commands, []⟩ script
  if !r.2 || raisesAfter then ⟨{ m with commands := r.1.commands }, r.1.added, false⟩
  else if r.1.p.info.name = "" then ⟨{ m with commands := r.1.commands }, r.1.added, false⟩
  else ⟨{ plugins := mapInsert m.plugins r.1.p.info.name r.1.p, commands := r.1.commands },
        r.1.added, true⟩

/-- `List` from plugin.go:590-598 (named `listInfos` here because `List` is
taken): the loaded plugins' descriptors sorted by name. -/
def listInfos {χ : Type} (m : Manager χ) : List Info :=
  (m.plugins.map (fun e => e.2.info)).mergeSort (fun a b => a.name ≤ b.name)

/-- A callback semantics in which every guest call succeeds returning Lua
nil — used to instantiate theorems at concrete inputs. -/
def callNil : Nat → String → String → Option LValue := fun _ _ _ => some LValue.lnil

/-- A callback semantics in which every guest call raises a runtime error. -/
def callErr : Nat → String → String → Option LValue := fun _ _ _ => none

/-- A concrete instance whose register call declared the allow-list
`["read"]`. -/
def capPlugin : Plugin Nat :=
  { id := 2, info := ⟨"cap", "0.1.0", "0.1.0"⟩, handle := "h2", hooks := [],
    commands := [], allowed := some ["read"], shutRaises := false }

/-- A concrete instance owning one hook callback and one command, whose
`shutdown` callback raises. -/
def pluginA : Plugin Nat :=
  { id := 1, info := ⟨"a", "0.1.0", "0.1.0"⟩, handle := "ha", hooks := [("hk", [7])],
    commands := ["cmd"], allowed := none, shutRaises := true }

/-- A concrete manager holding `pluginA` and its registered command. -/
def mgrA : Manager Nat := ⟨[("a", pluginA)], [("a.cmd", 1)]⟩

/-- A concrete instance that registered callback `0` under hook "hk". -/
def hookPlugin : Plugin Nat :=
  { id := 3, info := ⟨"hp", "0.1.0", "0.1.0"⟩, handle := "h3", hooks := [("hk", [0])],
    commands := [], allowed := none, shutRaises := false }

/-- A concrete instance named "demo" with unrestricted capabilities. -/
def demoPlugin : Plugin Nat :=
  { id := 4, info := ⟨"demo", "0.1.0", "0.1.0"⟩, handle := "h4", hooks := [],
    commands := [], allowed := none, shutRaises := false }

/-- A script that registers descriptor name "x", binds command "c", and then
raises inside `init`. -/
def failScript : List ScriptEv :=
  [ScriptEv.register ⟨"x", "0.1.0", "0.1.0"⟩, ScriptEv.command "c" true]

/-- Association-list lemma: inserting a key that is absent appends. -/
theorem mapInsert_of_lookup_none {α : Type} (k : String) (v : α) :
    ∀ m : List (String × α), mapLookup m k = none → mapInsert m k v = m ++ [(k, v)] := by
  intro m
  induction m with
  | nil => intro _; rfl
  | cons e rest ih =>
      intro h
      simp only [mapLookup] at h
      by_cases hk : e.1 = k
      · simp [hk] at h
      · simp only [mapInsert, if_neg hk, List.cons_append, List.cons.injEq, true_and]
        exact ih (by simpa [hk] using h)

/-- Association-list lemma: lookup after insertion at the same key. -/
theorem mapLookup_mapInsert_self {α : Type} (k : String) (v : α) :
    ∀ m : List (String × α), mapLookup (mapInsert m k v) k = some v := by
  intro m
  induction m with
  | nil => simp [mapInsert, mapLookup]
  | cons e rest ih =>
      by_cases hk : e.1 = k
      · simp [mapInsert, hk, mapLookup]
      · simp [mapInsert, hk, mapLookup, ih]

/-- Association-list lemma: lookup at another key is unchanged by insertion. -/
theorem mapLookup_mapInsert_ne {α : Type} {k k' : String} (v : α) (hne : k' ≠ k) :
    ∀ m : List (String × α), mapLookup (mapInsert m k v) k' = mapLookup m k' := by
  intro m
  induction m with
  | nil => simp [mapInsert, mapLookup, Ne.symm hne]
  | cons e rest ih =>
      by_cases hk : e.1 = k
      · subst hk
        simp [mapInsert, mapLookup, Ne.symm hne]
      · simp only [mapInsert, if_neg hk, mapLookup]
        by_cases hk' : e.1 = k'
        · simp [hk']
        · simp [hk', ih]

/-- Association-list lemma: inserting at a present key keeps the key list. -/
theorem mapInsert_map_fst {α : Type} {k : String} (v : α) :
    ∀ (m : List (String × α)) (w : α), mapLookup m k = some w →
      (mapInsert m k v).map Prod.fst = m.map Prod.fst := by
  intro m
  induction m with
  | nil => intro w h; simp [mapLookup] at h
  | cons e rest ih =>
      intro w h
      by_cases hk : e.1 = k
      · simp [mapInsert, hk]
      · simp only [mapLookup, if_neg hk] at h
        simp [mapInsert, hk, ih _ h]

/-- Association-list lemma: a found key occurs in the key list. -/
theorem mapLookup_mem_fst {α : Type} {k : String} :
    ∀ {m : List (String × α)} {v : α}, mapLookup m k = some v → k ∈ m.map Prod.fst := by
  intro m
  induction m with
  | nil => intro v h; simp [mapLookup] at h
  | cons e rest ih =>
      intro v h
      by_cases hk : e.1 = k
      · simp [hk]
      · simp only [mapLookup, if_neg hk] at h
        simp [ih h]

/-- Association-list lemma: membership after insertion. -/
theorem mem_mapInsert {α : Type} {k : String} {v : α} :
    ∀ {m : List (String × α)} {e : String × α},
      e ∈ mapInsert m k v → e ∈ m ∨ e = (k, v) := by
  intro m
  induction m with
  | nil => intro e he; simp [mapInsert] at he; exact Or.inr he
  | cons d rest ih =>
      intro e he
      by_cases hk : d.1 = k
      · simp only [mapInsert, if_pos hk, List.mem_cons] at he
        rcases he with he | he
        · exact Or.inr he
        · exact Or.inl (List.mem_cons_of_mem _ he)
      · simp only [mapInsert, if_neg hk, List.mem_cons] at he
        rcases he with he | he
        · exact Or.inl (he ▸ List.mem_cons_self _ _)
        · rcases ih he with h1 | h1
          · exact Or.inl (List.mem_cons_of_mem _ h1)
          · exact Or.inr h1

/-- Association-list lemma: membership after deletion. -/
theorem mem_mapDelete {α : Type} {k : String} :
    ∀ {m : List (String × α)} {e : String × α},
      e ∈ mapDelete m k → e ∈ m ∧ e.1 ≠ k := by
  intro m
  induction m with
  | nil => intro e he; simp [mapDelete] at he
  | cons d rest ih =>
      intro e he
      by_cases hk : d.1 = k
      · simp only [mapDelete, if_pos hk] at he
        obtain ⟨h1, h2⟩ := ih he
        exact ⟨List.mem_cons_of_mem _ h1, h2⟩
      · simp only [mapDelete, if_neg hk, List.mem_cons] at he
        rcases he with he | he
        · exact ⟨he ▸ List.mem_cons_self _ _, he ▸ hk⟩
        · obtain ⟨h1, h2⟩ := ih he
          exact ⟨List.mem_cons_of_mem _ h1, h2⟩

/-- `RunHook` on an empty plugin collection returns its input. -/
theorem runHook_nil {χ : Type} (call : χ → String → String → Option LValue)
    (cmds : List (String × Nat)) (name buf data : String) :
    RunHook call (⟨[], cmds⟩ : Manager χ) name buf data = data := rfl

/-- `RunHook` processes the first plugin's callbacks, then the rest. -/
theorem runHook_cons {χ : Type} (call : χ → String → String → Option LValue)
    (e : String × Plugin χ) (ps : List (String × Plugin χ))
    (cmds : List (String × Nat)) (name buf data : String) :
    RunHook call ⟨e :: ps, cmds⟩ name buf data =
      RunHook call ⟨ps, cmds⟩ name buf
        (((mapLookup e.2.hooks name).getD []).foldl (hookStep call buf) data) := by
  simp only [RunHook, List.foldl_cons]
  cases h : mapLookup e.2.hooks name <;> simp [h]

/-- Unfolding `hookCallbacks` over the first plugin. -/
theorem hookCallbacks_cons {χ : Type} (e : String × Plugin χ)
    (ps : List (String × Plugin χ)) (cmds : List (String × Nat)) (name : String) :
    hookCallbacks (⟨e :: ps, cmds⟩ : Manager χ) name =
      ((mapLookup e.2.hooks name).getD []) ++ hookCallbacks ⟨ps, cmds⟩ name := by
  simp [hookCallbacks]

/-- `RunHook` is the left fold of `hookStep` over all callbacks visited for
the hook, across plugins in map order, within a plugin in registration
order. -/
theorem runHook_eq_foldl {χ : Type} (call : χ → String → String → Option LValue)
    (name buf : String) :
    ∀ (ps : List (String × Plugin χ)) (cmds : List (String × Nat)) (data : String),
      RunHook call ⟨ps, cmds⟩ name buf data =
        (hookCallbacks ⟨ps, cmds⟩ name).foldl (hookStep call buf) data := by
  intro ps
  induction ps with
  | nil => intro cmds data; rfl
  | cons e rest ih =>
      intro cmds data
      rw [runHook_cons, hookCallbacks_cons, List.foldl_append, ih]

/-- The trace component of the instrumented inner loop: the plugin's
callbacks are recorded in order, tagged with the plugin's identity. -/
theorem innerFold_trace {χ : Type} (call : χ → String → String → Option LValue)
    (buf : String) (pid : Nat) :
    ∀ (fns : List χ) (a : String × List (Nat × χ)),
      (fns.foldl (fun a cb => (hookStep call buf a.1 cb, a.2 ++ [(pid, cb)])) a).2 =
        a.2 ++ fns.map (fun cb => (pid, cb)) := by
  intro fns
  induction fns with
  | nil => intro a; simp
  | cons c cs ih => intro a; simp [List.foldl_cons, ih]

/-- The value component of the instrumented inner loop matches the plain
inner loop. -/
theorem innerFold_fst {χ : Type} (call : χ → String → String → Option LValue)
    (buf : String) (pid : Nat) :
    ∀ (fns : List χ) (a : String × List (Nat × χ)),
      (fns.foldl (fun a cb => (hookStep call buf a.1 cb, a.2 ++ [(pid, cb)])) a).1 =
        fns.foldl (hookStep call buf) a.1 := by
  intro fns
  induction fns with
  | nil => intro a; simp
  | cons c cs ih => intro a; simp [List.foldl_cons, ih]

/-- The instrumented `RunHookT` computes the same final value as `RunHook`. -/
theorem runHookT_fst {χ : Type} (call : χ → String → String → Option LValue)
    (name buf : String) :
    ∀ (ps : List (String × Plugin χ)) (cmds : List (String × Nat))
      (a : String × List (Nat × χ)),
      (ps.foldl (fun acc e =>
        match mapLookup e.2.hooks name with
        | some fns => fns.foldl (fun a cb => (hookStep call buf a.1 cb, a.2 ++ [(e.2.id, cb)])) acc
        | none => acc) a).1 = RunHook call ⟨ps, cmds⟩ name buf a.1 := by
  intro ps
  induction ps with
  | nil => intro cmds a; rfl
  | cons e rest ih =>
      intro cmds a
      rw [List.foldl_cons, runHook_cons]
      cases h : mapLookup e.2.hooks name with
      | none => simpa [h] using ih cmds a
      | some fns =>
          have := ih cmds (fns.foldl
            (fun a cb => (hookStep call buf a.1 cb, a.2 ++ [(e.2.id, cb)])) a)
          simpa [h, innerFold_fst] using this

/-- Every invocation `RunHookT` records is tagged with the identity of a
plugin present in the manager. -/
theorem runHookT_trace_mem {χ : Type} (call : χ → String → String → Option LValue)
    (name buf : String) :
    ∀ (ps : List (String × Plugin χ)) (a : String × List (Nat × χ)) (q : Nat × χ),
      q ∈ (ps.foldl (fun acc e =>
        match mapLookup e.2.hooks name with
        | some fns => fns.foldl (fun a cb => (hookStep call buf a.1 cb, a.2 ++ [(e.2.id, cb)])) acc
        | none => acc) a).2 →
      q ∈ a.2 ∨ ∃ e ∈ ps, q.1 = e.2.id := by
  intro ps
  induction ps with
  | nil => intro a q hq; exact Or.inl hq
  | cons e rest ih =>
      intro a q hq
      rw [List.foldl_cons] at hq
      rcases ih _ q hq with hin | ⟨e2, he2, hid⟩
      · cases h : mapLookup e.2.hooks name with
        | none => rw [h] at hin; exact Or.inl hin
        | some fns =>
            rw [h] at hin
            rw [innerFold_trace] at hin
            rcases List.mem_append.mp hin with h1 | h1
            · exact Or.inl h1
            · obtain ⟨cb, _, hcb⟩ := List.mem_map.mp h1
              exact Or.inr ⟨e, List.mem_cons_self _ _, by rw [← hcb]⟩
      · exact Or.inr ⟨e2, List.mem_cons_of_mem _ he2, hid⟩

/-- Every invocation of `RunHookT` on a manager comes from a loaded plugin. -/
theorem runHookT_ids {χ : Type} (call : χ → String → String → Option LValue)
    (m : Manager χ) (name buf data : String) :
    ∀ q ∈ (RunHookT call m name buf data).2, ∃ e ∈ m.plugins, q.1 = e.2.id := by
  intro q hq
  have h := runHookT_trace_mem call name buf m.plugins (data, []) q (by
    simpa [RunHookT] using hq)
  rcases h with h | h
  · simp at h
  · exact h

/-- The trace of `RunHookT` on a one-plugin manager is exactly that
plugin's callback list for the hook, tagged with its identity. -/
theorem runHookT_single {χ : Type} (call : χ → String → String → Option LValue)
    (n : String) (p : Plugin χ) (cmds : List (String × Nat)) (h buf data : String) :
    (RunHookT call ⟨[(n, p)], cmds⟩ h buf data).2 =
      ((mapLookup p.hooks h).getD []).map (fun cb => (p.id, cb)) := by
  cases hl : mapLookup p.hooks h with
  | none => simp [RunHookT, hl]
  | some fns => simp [RunHookT, hl, innerFold_trace]

/-- Claim C9: when the interactive-prompt collaborator itself returns an
error, the two consent checks behave oppositely — a capability request
during register is denied (the closure raises and `Load` fails), while a
hook-registration request is treated as granted (the callback is registered
with no consent obtained). -/
theorem c9_prompt_error_asymmetry (e : String) :
    registerConsent (Except.error e) = false ∧ hookConsent (Except.error e) = true :=
  ⟨rfl, rfl⟩

/-- Claim C4 (amended): when the Capability Gate prompt returns a response,
both consent checks proceed exactly when the response, whitespace-trimmed
and lower-cased, equals the word "y"; every other response is a denial. -/
theorem c4_affirmative_is_y (s : String) :
    (registerConsent (Except.ok s) = true ↔ toLowerStr (trimSpace s) = "y") ∧
    (hookConsent (Except.ok s) = true ↔ toLowerStr (trimSpace s) = "y") := by
  constructor <;> simp [registerConsent, hookConsent]

/-- Claim C4 counterexample: the response "yes" — the claim's affirmative
word — is denied by both consent checks, whose comparison is against "y";
"y" itself (with any case or surrounding whitespace) is granted. -/
theorem c4_counterexample :
    registerConsent (Except.ok "yes") = false ∧
    hookConsent (Except.ok "yes") = false ∧
    registerConsent (Except.ok "y") = true ∧
    registerConsent (Except.ok " Y ") = true := by decide

/-- Claim C3 (amended): for an instance with a declared allow-list, the
read, write, prompt, http, gen, socat, pipe and print closures raise a
capability error exactly when their name is absent from the list; the hook
and command closures perform no allow-list check at all, so name-absent
calls to them proceed. -/
theorem c3_allowlist_gating {χ : Type} (p : Plugin χ) (caps : List String)
    (hcaps : p.allowed = some caps) :
    readGuard p = !(caps.contains "read") ∧
    writeGuard p = !(caps.contains "write") ∧
    promptGuard p = !(caps.contains "prompt") ∧
    httpGuard p = !(caps.contains "http") ∧
    genGuard p = !(caps.contains "gen") ∧
    socatGuard p = !(caps.contains "socat") ∧
    pipeGuard p = !(caps.contains "pipe") ∧
    printGuard p = !(caps.contains "print") ∧
    hookGuard p = false ∧
    commandGuard p = false := by
  simp [readGuard, writeGuard, promptGuard, httpGuard, genGuard, socatGuard,
    pipeGuard, printGuard, hookGuard, commandGuard, apiDenied, hcaps]

/-- Claim C3 witness: the amended gating at `capPlugin`, whose allow-list is
["read"]. -/
theorem c3_allowlist_gating_witness :
    readGuard capPlugin = !((["read"] : List String).contains "read") ∧
    writeGuard capPlugin = !((["read"] : List String).contains "write") ∧
    promptGuard capPlugin = !((["read"] : List String).contains "prompt") ∧
    httpGuard capPlugin = !((["read"] : List String).contains "http") ∧
    genGuard capPlugin = !((["read"] : List String).contains "gen") ∧
    socatGuard capPlugin = !((["read"] : List String).contains "socat") ∧
    pipeGuard capPlugin = !((["read"] : List String).contains "pipe") ∧
    printGuard capPlugin = !((["read"] : List String).contains "print") ∧
    hookGuard capPlugin = false ∧
    commandGuard capPlugin = false :=
  c3_allowlist_gating capPlugin ["read"] (by decide)

/-- Claim C3 counterexample: `capPlugin` declared the allow-list ["read"];
"hook" and "command" are not in that list, yet the hook and command closures
raise no capability error for it. -/
theorem c3_counterexample :
    capPlugin.allowed = some ["read"] ∧
    ((["read"] : List String).contains "hook") = false ∧
    ((["read"] : List String).contains "command") = false ∧
    hookGuard capPlugin = false ∧
    commandGuard capPlugin = false := by decide

/-- Claim C5: `RunHook` threads the value through every callback registered
under the hook name — across instances in map order and, within one
instance, in registration order; a guest runtime error in a callback leaves
the value unchanged at that step and never aborts the chain or propagates;
with zero callbacks registered for the name the input is returned
unchanged. -/
theorem c5_runHook_fold {χ : Type} (call : χ → String → String → Option LValue)
    (m : Manager χ) (name buf data : String) :
    RunHook call m name buf data =
      (hookCallbacks m name).foldl (hookStep call buf) data ∧
    (∀ (cb : χ) (out : String), call cb buf out = none → hookStep call buf out cb = out) ∧
    (hookCallbacks m name = [] → RunHook call m name buf data = data) := by
  obtain ⟨ps, cmds⟩ := m
  refine ⟨runHook_eq_foldl call name buf ps cmds data, ?_, ?_⟩
  · intro cb out h
    simp [hookStep, h]
  · intro h0
    rw [runHook_eq_foldl call name buf ps cmds data, h0]
    rfl

/-- Claim C5 witness: the fold identity on the concrete manager `mgrA`, an
error-step on callback 7, and the zero-callback case on an empty manager. -/
theorem c5_runHook_fold_witness :
    RunHook callErr mgrA "hk" "b" "x" =
      (hookCallbacks mgrA "hk").foldl (hookStep callErr "b") "x" ∧
    hookStep callErr "b" "x" 7 = "x" ∧
    RunHook callErr (⟨[], []⟩ : Manager Nat) "none" "b" "x" = "x" := by
  have h1 := c5_runHook_fold callErr mgrA "hk" "b" "x"
  have h2 := c5_runHook_fold callErr (⟨[], []⟩ : Manager Nat) "none" "b" "x"
  exact ⟨h1.1, h1.2.1 7 "x" rfl, h2.2.2 (by decide)⟩

/-- Claim C10: on a successful callback the threaded value becomes the
string rendering of the callback's first return value; in particular a
callback that returns Lua nil (or returns nothing, which `NRet: 1` pads to
nil) replaces the threaded value with the literal string "nil". -/
theorem c10_render_coercion {χ : Type} (call : χ → String → String → Option LValue)
    (cb : χ) (p : Plugin χ) (n name buf data : String) (v : LValue)
    (hhooks : p.hooks = [(name, [cb])])
    (hcall : call cb buf data = some v) :
    RunHook call ⟨[(n, p)], []⟩ name buf data = lvRender v ∧
    (v = LValue.lnil → RunHook call ⟨[(n, p)], []⟩ name buf data = "nil") := by
  have h1 : RunHook call ⟨[(n, p)], []⟩ name buf data = lvRender v := by
    rw [runHook_cons]
    simp [hhooks, mapLookup, hookStep, hcall, runHook_nil]
  exact ⟨h1, fun hv => by rw [h1, hv]; rfl⟩

/-- Claim C10 witness: a callback returning nil under hook "hk" makes
`RunHook` return the string "nil" on input "x". -/
theorem c10_render_coercion_witness :
    RunHook callNil ⟨[("hp", hookPlugin)], []⟩ "hk" "b" "x" = "nil" :=
  (c10_render_coercion callNil 0 hookPlugin "hp" "hk" "b" "x" LValue.lnil
    (by decide) rfl).2 rfl

/-- Claim C7: for a loaded plugin named P, a buffer name B passed by a
script reaches the shared buffer store unchanged when it begins with the
sigil '%', and as `%P_B` otherwise — stated for `pluginBufferName`, which
the read, write, prompt, gen, socat and pipe closures all apply to their
buffer argument, and for the `write` closure's store update. -/
theorem c7_buffer_namespacing {χ : Type} (p : Plugin χ) (B data : String)
    (store : List (String × String))
    (hcap : apiDenied p "write" = false) :
    (strHasPre "%" B = true → pluginBufferName p.info.name B = B ∧
      writeClosure p p.handle B data store = .ok (mapInsert store B data)) ∧
    (strHasPre "%" B = false →
      pluginBufferName p.info.name B = "%" ++ p.info.name ++ "_" ++ B ∧
      writeClosure p p.handle B data store =
        .ok (mapInsert store ("%" ++ p.info.name ++ "_" ++ B) data)) := by
  constructor
  · intro h
    have hb : pluginBufferName p.info.name B = B := by
      simp [pluginBufferName, h]
    exact ⟨hb, by simp [writeClosure, hcap, hb]⟩
  · intro h
    have hb : pluginBufferName p.info.name B = "%" ++ p.info.name ++ "_" ++ B := by
      simp [pluginBufferName, h]
    exact ⟨hb, by simp [writeClosure, hcap, hb]⟩

/-- Claim C7 witness: plugin "demo" writing buffer "foo" stores under
"%demo_foo", while the sigil-carrying "%g" passes through unchanged. -/
theorem c7_buffer_namespacing_witness :
    pluginBufferName demoPlugin.info.name "foo" = "%demo_foo" ∧
    writeClosure demoPlugin demoPlugin.handle "%g" "x" [] =
      .ok (mapInsert [] "%g" "x") := by
  have h := c7_buffer_namespacing demoPlugin "foo" "bar" [] (by decide)
  have h2 := c7_buffer_namespacing demoPlugin "%g" "x" [] (by decide)
  constructor
  · have hb := (h.2 (by decide)).1
    rw [hb]
    decide
  · exact (h2.1 (by decide)).2

/-- The registration scan of the `hook` closure: when the callback identity
is already present under the hook name, nothing changes. -/
theorem registerHook_of_mem {χ : Type} [DecidableEq χ] (X : List (String × List χ))
    (h : String) (cb : χ) (hmem : cb ∈ (mapLookup X h).getD []) :
    registerHook X h cb = X := by
  simp [registerHook, hmem]

/-- Claim C8: registering the identical callback (same identity) a second
time under the same hook name on the same instance is a no-op — the
instance's callback list for that hook is unchanged — and a subsequent
`RunHook` call invokes that callback exactly once. -/
theorem c8_reregister_noop {χ : Type} [DecidableEq χ] (H : List (String × List χ))
    (h : String) (cb : χ) (p : Plugin χ) (n : String) (cmds : List (String × Nat))
    (call : χ → String → String → Option LValue) (buf data : String)
    (hnotin : cb ∉ (mapLookup H h).getD [])
    (hp : p.hooks = registerHook (registerHook H h cb) h cb) :
    registerHook (registerHook H h cb) h cb = registerHook H h cb ∧
    ((mapLookup p.hooks h).getD []).countP (fun c => decide (c = cb)) = 1 ∧
    (RunHookT call ⟨[(n, p)], cmds⟩ h buf data).2.countP
      (fun q => decide (q = (p.id, cb))) = 1 := by
  have hfirst : registerHook H h cb =
      mapInsert H h (((mapLookup H h).getD []) ++ [cb]) := by
    simp [registerHook, hnotin]
  have hlook : mapLookup (registerHook H h cb) h =
      some (((mapLookup H h).getD []) ++ [cb]) := by
    rw [hfirst]
    exact mapLookup_mapInsert_self h _ H
  have hsecond : registerHook (registerHook H h cb) h cb = registerHook H h cb :=
    registerHook_of_mem _ h cb (by rw [hlook]; simp)
  have hzero : ((mapLookup H h).getD []).countP (fun c => decide (c = cb)) = 0 := by
    rw [List.countP_eq_zero]
    intro a ha
    simp only [decide_eq_true_eq]
    exact fun hc => hnotin (hc ▸ ha)
  have hcnt : (((mapLookup H h).getD []) ++ [cb]).countP
      (fun c => decide (c = cb)) = 1 := by
    rw [List.countP_append, hzero]
    simp
  refine ⟨hsecond, ?_, ?_⟩
  · rw [hp, hsecond, hlook]
    simpa using hcnt
  · rw [runHookT_single, hp, hsecond, hlook]
    simp only [Option.getD_some]
    rw [List.countP_map]
    calc ((((mapLookup H h).getD []) ++ [cb]).countP
            ((fun q => decide (q = (p.id, cb))) ∘ (fun cb => (p.id, cb))))
        = (((mapLookup H h).getD []) ++ [cb]).countP (fun c => decide (c = cb)) := by
          refine List.countP_congr ?_
          intro x _
          simp [Function.comp]
      _ = 1 := hcnt

/-- Claim C8 witness: callback 0 registered twice under "hk" on
`hookPlugin` yields the same hook table as registering once, a callback
list containing 0 exactly once, and exactly one recorded invocation per
`RunHook`. -/
theorem c8_reregister_noop_witness :
    registerHook (registerHook ([] : List (String × List Nat)) "hk" 0) "hk" 0 =
      registerHook ([] : List (String × List Nat)) "hk" 0 ∧
    ((mapLookup hookPlugin.hooks "hk").getD []).countP (fun c => decide (c = 0)) = 1 ∧
    (RunHookT callNil ⟨[("hp", hookPlugin)], []⟩ "hk" "b" "x").2.countP
      (fun q => decide (q = (hookPlugin.id, 0))) = 1 :=
  c8_reregister_noop [] "hk" 0 hookPlugin "hp" [] callNil "b" "x" (by decide) (by decide)

/-- Claim C6: once an instance with the given name exists, `Unload`
succeeds — stated for an arbitrary instance, in particular one whose
`shutdown` callback raises, since `Unload` discards that error — removing
from the command registry exactly the commands the instance owns and
reporting each removed name to the observer; afterwards no `RunHook`
invocation, for any hook name, invokes a callback of that instance. -/
theorem c6_unload_total {χ : Type} (m : Manager χ) (name : String)
    (p : Plugin χ) (call : χ → String → String → Option LValue) (hk buf data : String)
    (hmem : mapLookup m.plugins name = some p)
    (hfresh : ∀ e ∈ m.plugins, e.1 ≠ name → e.2.id ≠ p.id) :
    Unload m name = Except.ok
      (⟨mapDelete m.plugins name, m.commands.filter (fun e => decide (e.2 ≠ p.id))⟩,
       (m.commands.filter (fun e => decide (e.2 = p.id))).map (fun e => e.1)) ∧
    (∀ q ∈ (RunHookT call ⟨mapDelete m.plugins name,
        m.commands.filter (fun e => decide (e.2 ≠ p.id))⟩ hk buf data).2,
      q.1 ≠ p.id) := by
  constructor
  · simp [Unload, hmem]
  · intro q hq
    obtain ⟨e, he, hid⟩ := runHookT_ids call _ hk buf data q hq
    obtain ⟨hin, hne⟩ := mem_mapDelete he
    rw [hid]
    exact hfresh e hin hne

/-- Claim C6 witness: unloading "a" from `mgrA` — whose `pluginA` has a
raising `shutdown` callback — succeeds, removes its command "a.cmd" with a
notification, and leaves no trace invocation with its identity. -/
theorem c6_unload_total_witness :
    Unload mgrA "a" = Except.ok
      (⟨mapDelete mgrA.plugins "a",
        mgrA.commands.filter (fun e => decide (e.2 ≠ pluginA.id))⟩,
       (mgrA.commands.filter (fun e => decide (e.2 = pluginA.id))).map (fun e => e.1)) ∧
    (∀ q ∈ (RunHookT callNil ⟨mapDelete mgrA.plugins "a",
        mgrA.commands.filter (fun e => decide (e.2 ≠ pluginA.id))⟩ "hk" "b" "x").2,
      q.1 ≠ pluginA.id) :=
  c6_unload_total mgrA "a" pluginA callNil "hk" "b" "x" (by decide) (by decide)

/-- On any script, `runEvents` only appends to the manager's command
registry, and the `addCmdFn` notifications are exactly the names of the
appended entries, in order. -/
theorem runEvents_ext {χ : Type} :
    ∀ (evs : List ScriptEv) (st : LoadSt χ),
      ∃ rest, (runEvents st evs).1.commands = st.commands ++ rest ∧
        (runEvents st evs).1.added = st.added ++ rest.map (fun e => e.1) := by
  intro evs
  induction evs with
  | nil => intro st; exact ⟨[], by simp [runEvents], by simp [runEvents]⟩
  | cons e rest ih =>
      intro st
      cases hstep : stepEv st e with
      | none =>
          refine ⟨[], ?_, ?_⟩
          · simp only [runEvents]
            rw [hstep]
            simp
          · simp only [runEvents]
            rw [hstep]
            simp
      | some st2 =>
          have hrw : runEvents st (e :: rest) = runEvents st2 rest := by
            simp only [runEvents]
            rw [hstep]
          obtain ⟨r2, h2, h3⟩ := ih st2
          cases e with
          | register inf =>
              have hst := Option.some.inj (by simpa only [stepEv] using hstep)
              have hc : st2.commands = st.commands := by rw [← hst]
              have ha : st2.added = st.added := by rw [← hst]
              exact ⟨r2, by rw [hrw, h2, hc], by rw [hrw, h3, ha]⟩
          | command ln fb =>
              by_cases hname : st.p.info.name = ""
              · exfalso
                simp [stepEv, hname] at hstep
              · cases hl : mapLookup st.commands (st.p.info.name ++ "." ++ ln) with
                | some w =>
                    exfalso
                    simp [stepEv, hname, hl] at hstep
                | none =>
                    cases fb with
                    | false =>
                        exfalso
                        simp [stepEv, hname, hl] at hstep
                    | true =>
                        simp only [stepEv, if_neg hname, hl, if_true] at hstep
                        have hst := Option.some.inj hstep
                        have hc : st2.commands = st.commands ++
                            [(st.p.info.name ++ "." ++ ln, st.p.id)] := by
                          rw [← hst]
                          exact mapInsert_of_lookup_none _ _ _ hl
                        have ha : st2.added = st.added ++
                            [st.p.info.name ++ "." ++ ln] := by
                          rw [← hst]
                        refine ⟨(st.p.info.name ++ "." ++ ln, st.p.id) :: r2, ?_, ?_⟩
                        · rw [hrw, h2, hc]
                          simp
                        · rw [hrw, h3, ha]
                          simp

/-- Claim C2 (amended): whenever `Load` fails, no instance is created — the
plugin map is exactly as before the call — but `Load` performs no rollback
of command registrations: the command registry after the failed call is the
prior registry extended with the entries the script registered before
failing, and the observer notifications for exactly those entries survive. -/
theorem c2_load_failure_frame {χ : Type} (m : Manager χ) (pid : Nat)
    (handle : String) (script : List ScriptEv) (raisesAfter : Bool)
    (hfail : (Load m pid handle script raisesAfter).ok = false) :
    (Load m pid handle script raisesAfter).mgr.plugins = m.plugins ∧
    ∃ rest, (Load m pid handle script raisesAfter).mgr.commands = m.commands ++ rest ∧
      (Load m pid handle script raisesAfter).added = rest.map (fun e => e.1) := by
  obtain ⟨rest, hc, ha⟩ := runEvents_ext script
    (⟨freshPlugin χ pid handle, m.commands, []⟩ : LoadSt χ)
  by_cases h1 : (!(runEvents (⟨freshPlugin χ pid handle, m.commands, []⟩ : LoadSt χ)
      script).2 || raisesAfter) = true
  · refine ⟨?_, rest, ?_, ?_⟩
    · simp [Load, h1]
    · simpa [Load, h1] using hc
    · simpa [Load, h1] using ha
  · by_cases h2 : (runEvents (⟨freshPlugin χ pid handle, m.commands, []⟩ : LoadSt χ)
        script).1.p.info.name = ""
    · refine ⟨?_, rest, ?_, ?_⟩
      · simp [Load, h1, h2]
      · simpa [Load, h1, h2] using hc
      · simpa [Load, h1, h2] using ha
    · exfalso
      have hok : (Load m pid handle script raisesAfter).ok = true := by
        simp [Load, h1, h2]
      rw [hfail] at hok
      exact Bool.false_ne_true hok

/-- Claim C2 counterexample: a script registers name "x", binds command
"c", then `init` raises.  `Load` fails and creates no instance, yet the
command registry retains the entry "x.c" pointing at the discarded
interpreter, and the add-notification for it survives. -/
theorem c2_counterexample :
    (Load (⟨[], []⟩ : Manager Nat) 1 "h" failScript true).ok = false ∧
    (Load (⟨[], []⟩ : Manager Nat) 1 "h" failScript true).mgr.plugins = [] ∧
    (Load (⟨[], []⟩ : Manager Nat) 1 "h" failScript true).mgr.commands =
      [("x.c", 1)] ∧
    (Load (⟨[], []⟩ : Manager Nat) 1 "h" failScript true).added = ["x.c"] := by decide

/-- Claim C2 witness: the failure frame instantiated at the concrete
failing load of `failScript`. -/
theorem c2_load_failure_frame_witness :
    (Load (⟨[], []⟩ : Manager Nat) 1 "h" failScript true).mgr.plugins =
      (⟨[], []⟩ : Manager Nat).plugins ∧
    ∃ rest, (Load (⟨[], []⟩ : Manager Nat) 1 "h" failScript true).mgr.commands =
        (⟨[], []⟩ : Manager Nat).commands ++ rest ∧
      (Load (⟨[], []⟩ : Manager Nat) 1 "h" failScript true).added =
        rest.map (fun e => e.1) :=
  c2_load_failure_frame (⟨[], []⟩ : Manager Nat) 1 "h" failScript true (by decide)

/-- Claim C1 (amended): loading a script that registers an already-loaded
descriptor name N does not fail — `Load` performs no duplicate-name check —
it succeeds and replaces the prior instance in the plugin map: `List`
afterwards contains N's descriptor exactly once (the new instance's),
lookups at every other name are untouched, and the command registry —
including the prior instance's registered commands — is unchanged. -/
theorem c1_duplicate_load_replaces {χ : Type} (m : Manager χ) (N handle : String)
    (q : Plugin χ) (pid : Nat) (inf : Info)
    (hmem : mapLookup m.plugins N = some q)
    (hkeys : (m.plugins.map Prod.fst).Nodup)
    (hinv : ∀ e ∈ m.plugins, e.2.info.name = e.1)
    (hname : inf.name = N) (hN : N ≠ "") :
    (Load m pid handle [ScriptEv.register inf] false).ok = true ∧
    ((listInfos (Load m pid handle [ScriptEv.register inf] false).mgr).map
      Info.name).count N = 1 ∧
    mapLookup (Load m pid handle [ScriptEv.register inf] false).mgr.plugins N =
      some { freshPlugin χ pid handle with info := inf } ∧
    (∀ k, k ≠ N →
      mapLookup (Load m pid handle [ScriptEv.register inf] false).mgr.plugins k =
        mapLookup m.plugins k) ∧
    (Load m pid handle [ScriptEv.register inf] false).mgr.commands = m.commands := by
  have hne : ¬inf.name = "" := fun hcon => hN (hname ▸ hcon)
  have hr : Load m pid handle [ScriptEv.register inf] false =
      ⟨⟨mapInsert m.plugins N { freshPlugin χ pid handle with info := inf },
        m.commands⟩, [], true⟩ := by
    simp [Load, runEvents, stepEv, freshPlugin, hname, hN]
  have hkeys2 : ((mapInsert m.plugins N
      { freshPlugin χ pid handle with info := inf }).map Prod.fst) =
      m.plugins.map Prod.fst := mapInsert_map_fst _ m.plugins q hmem
  have hinv2 : ∀ e ∈ mapInsert m.plugins N
      { freshPlugin χ pid handle with info := inf }, e.2.info.name = e.1 := by
    intro e he
    rcases mem_mapInsert he with h1 | h1
    · exact hinv e h1
    · rw [h1]
      exact hname
  refine ⟨by rw [hr], ?_, ?_, ?_, by rw [hr]⟩
  · rw [hr]
    have hperm := (List.mergeSort_perm ((mapInsert m.plugins N
        { freshPlugin χ pid handle with info := inf }).map (fun e => e.2.info))
        (fun a b => a.name ≤ b.name)).map Info.name
    rw [show listInfos (⟨mapInsert m.plugins N
        { freshPlugin χ pid handle with info := inf }, m.commands⟩ : Manager χ) =
        ((mapInsert m.plugins N
          { freshPlugin χ pid handle with info := inf }).map
            (fun e => e.2.info)).mergeSort (fun a b => a.name ≤ b.name) from rfl]
    rw [List.Perm.count_eq hperm N]
    rw [List.map_map]
    have hmapeq : List.map (Info.name ∘ fun e => e.2.info)
        (mapInsert m.plugins N { freshPlugin χ pid handle with info := inf }) =
        List.map Prod.fst
          (mapInsert m.plugins N { freshPlugin χ pid handle with info := inf }) :=
      List.map_congr_left (fun e he => hinv2 e he)
    rw [hmapeq, hkeys2]
    exact List.count_eq_one_of_mem hkeys (mapLookup_mem_fst hmem)
  · rw [hr]
    exact mapLookup_mapInsert_self N _ m.plugins
  · intro k hk
    rw [hr]
    exact mapLookup_mapInsert_ne _ hk m.plugins

/-- Claim C1 counterexample: with an instance named "a" loaded (owning a
hook callback and the command "a.cmd"), loading a script that registers the
same descriptor name succeeds — no duplicate-name error — and the stored
instance is the fresh one: the prior instance, hooks included, is replaced
in the plugin map while its command entry survives in the registry. -/
theorem c1_counterexample :
    (Load mgrA 2 "h2" [ScriptEv.register ⟨"a", "0.1.0", "0.2.0"⟩] false).ok = true ∧
    mapLookup (Load mgrA 2 "h2"
        [ScriptEv.register ⟨"a", "0.1.0", "0.2.0"⟩] false).mgr.plugins "a" =
      some { freshPlugin Nat 2 "h2" with info := ⟨"a", "0.1.0", "0.2.0"⟩ } ∧
    (Load mgrA 2 "h2" [ScriptEv.register ⟨"a", "0.1.0", "0.2.0"⟩] false).mgr.commands =
      [("a.cmd", 1)] := by decide

/-- Claim C1 witness: the amended statement instantiated at `mgrA`, which
already holds an instance named "a". -/
theorem c1_duplicate_load_replaces_witness :
    (Load mgrA 2 "h2" [ScriptEv.register ⟨"a", "0.1.0", "0.2.0"⟩] false).ok = true ∧
    ((listInfos (Load mgrA 2 "h2"
        [ScriptEv.register ⟨"a", "0.1.0", "0.2.0"⟩] false).mgr).map
      Info.name).count "a" = 1 ∧
    mapLookup (Load mgrA 2 "h2"
        [ScriptEv.register ⟨"a", "0.1.0", "0.2.0"⟩] false).mgr.plugins "a" =
      some { freshPlugin Nat 2 "h2" with info := ⟨"a", "0.1.0", "0.2.0"⟩ } ∧
    (∀ k, k ≠ "a" →
      mapLookup (Load mgrA 2 "h2"
          [ScriptEv.register ⟨"a", "0.1.0", "0.2.0"⟩] false).mgr.plugins k =
        mapLookup mgrA.plugins k) ∧
    (Load mgrA 2 "h2" [ScriptEv.register ⟨"a", "0.1.0", "0.2.0"⟩] false).mgr.commands =
      mgrA.commands :=
  c1_duplicate_load_replaces mgrA "a" "h2" pluginA 2 ⟨"a", "0.1.0", "0.2.0"⟩
    (by decide) (by decide) (by decide) rfl (by decide)
